import Mathlib

/-!
Shallow embedding of the yes-energy-worker CSV ingestion pipeline
(src/index.ts): CSV parsing with header validation, revision-based
deduplication, chunked processing, range queries and the storage-writer
loop.  Strings are modelled with explicit `List Char` splitting so that
every definition evaluates by kernel reduction.  JS `undefined` string
fields are modelled as `Option.none`; JS string truthiness ("" and
`undefined` are falsy) is modelled by `truthy`.  The JS engine's
`new Date(s)` parser is an external capability and is passed in as a
parameter `pd : String → Option Int` (`none` models an Invalid Date /
NaN timestamp; any comparison against NaN is false).  The D1 database's
per-record upsert outcome is likewise passed in as an oracle
`upsertOk : ForecastRecord → Bool`, and the R2 bucket as
`bucket : String → Option String` (none = absent object).
-/

namespace YesEnergy

/-- One parsed CSV row (source: `interface ForecastRecord`, src/index.ts:11-18).
Each field is `Option String`: `none` models a JS `undefined` field. -/
structure ForecastRecord where
  date : Option String
  time : Option String
  load_fcst : Option String
  load_act : Option String
  revision : Option String
deriving DecidableEq, Repr

/-- JS truthiness of a possibly-undefined string: `undefined` and `""` are falsy. -/
def truthy : Option String → Bool
  | none => false
  | some s => s != ""

/-- Split a character list on a single-character separator, modelling JS
`String.prototype.split` with a one-character separator (the result always
has at least one piece; `"".split(c)` is `[""]`). -/
def splitChar (sep : Char) : List Char → List (List Char)
  | [] => [[]]
  | c :: cs =>
    match splitChar sep cs with
    | [] => [[c]]
    | h :: t => if c = sep then [] :: h :: t else (c :: h) :: t

def strSplit (s : String) (sep : Char) : List String :=
  (splitChar sep s.data).map String.mk

/-- ASCII whitespace, modelling the characters JS `trim` removes on this
repository's data (space, tab, CR, LF). -/
def isWsChar (c : Char) : Bool := c = ' ' || c = '\t' || c = '\n' || c = '\r'

def trimChars (l : List Char) : List Char :=
  ((l.dropWhile isWsChar).reverse.dropWhile isWsChar).reverse

/-- JS `String.prototype.trim` (ASCII whitespace). -/
def strTrim (s : String) : String := String.mk (trimChars s.data)

/-- JS `String.prototype.toLowerCase` (ASCII). -/
def strToLower (s : String) : String := String.mk (s.data.map Char.toLower)

/-- JS `String.prototype.startsWith`. -/
def strStartsWith (s p : String) : Bool := p.data.isPrefixOf s.data

/-- Lexicographic order on character lists, modelling the code-unit
comparison JS uses for its string relational operators and (on this
repository's ASCII data) for `localeCompare`. -/
def lexLt : List Char → List Char → Bool
  | [], [] => false
  | [], _ :: _ => true
  | _ :: _, [] => false
  | a :: as, b :: bs => if a < b then true else if b < a then false else lexLt as bs

/-- JS `a < b` on strings. -/
def jsLt (a b : String) : Bool := lexLt a.data b.data

/-- JS `a <= b` on strings (`!(b < a)`). -/
def jsLe (a b : String) : Bool := !jsLt b a

/-- JS template-literal rendering of a possibly-undefined string field:
`undefined` prints as `"undefined"`. -/
def keyStr : Option String → String
  | none => "undefined"
  | some s => s

/-- The dedup key `` `${record.date}_${record.time}` `` (src/index.ts:101,122,221). -/
def recKey (r : ForecastRecord) : String := keyStr r.date ++ "_" ++ keyStr r.time

/-- Models `new Date(a) > new Date(b)` where `pd` is the engine's date parser
(`none` = Invalid Date, i.e. NaN timestamp; any `>` against NaN is false). -/
def revNewer (pd : String → Option Int) : Option String → Option String → Bool
  | some a, some b =>
    match pd a, pd b with
    | some x, some y => decide (y < x)
    | _, _ => false
  | _, _ => false

/-- The write-path replacement test of the dedup fold
(src/index.ts:123 and 222): `!acc[key] || (record.revision &&
(!acc[key].revision || new Date(record.revision) > new Date(acc[key].revision)))`,
given the existing slot (`none` when `acc[key]` is absent) and the incoming row. -/
def shouldReplaceWrite (pd : String → Option Int) :
    Option ForecastRecord → ForecastRecord → Bool
  | none, _ => true
  | some e, r => truthy r.revision && (!truthy e.revision || revNewer pd r.revision e.revision)

/-- The read-path replacement test of the dedup fold (src/index.ts:102):
`!acc[key] || (record.revision && acc[key].revision &&
new Date(record.revision) > new Date(acc[key].revision))`. -/
def shouldReplaceRead (pd : String → Option Int) :
    Option ForecastRecord → ForecastRecord → Bool
  | none, _ => true
  | some e, r => truthy r.revision && truthy e.revision && revNewer pd r.revision e.revision

/-- Lookup in the keyed accumulator (JS object property read `acc[key]`). -/
def getKey : List (String × ForecastRecord) → String → Option ForecastRecord
  | [], _ => none
  | (k', v) :: rest, k => if k' = k then some v else getKey rest k

/-- Write to the keyed accumulator (JS `acc[key] = record`): replaces in
place when the key exists (string-keyed JS objects keep first-insertion
order, which `Object.values` later reads back), appends otherwise. -/
def setKey : List (String × ForecastRecord) → String → ForecastRecord →
    List (String × ForecastRecord)
  | [], k, v => [(k, v)]
  | (k', v') :: rest, k, v =>
    if k' = k then (k, v) :: rest else (k', v') :: setKey rest k v

/-- The dedup `reduce` fold shared by all three call sites, parameterized by
the replacement test; also counts the rows dropped in the `else` branch
(only `processCSVChunk`'s fold, src/index.ts:220-228, reads that counter). -/
def dedupCountAux (repl : Option ForecastRecord → ForecastRecord → Bool) :
    List (String × ForecastRecord) → Nat → List ForecastRecord →
    List (String × ForecastRecord) × Nat
  | acc, d, [] => (acc, d)
  | acc, d, r :: rs =>
    if repl (getKey acc (recKey r)) r then dedupCountAux repl (setKey acc (recKey r) r) d rs
    else dedupCountAux repl acc (d + 1) rs

def dedupRecords (repl : Option ForecastRecord → ForecastRecord → Bool)
    (rows : List ForecastRecord) : List (String × ForecastRecord) :=
  (dedupCountAux repl [] 0 rows).1

/-- Reads `Object.values` of the dedup fold's result. -/
def dedupValues (repl : Option ForecastRecord → ForecastRecord → Bool)
    (rows : List ForecastRecord) : List ForecastRecord :=
  (dedupRecords repl rows).map Prod.snd

/-- The record literal that starts every row (src/index.ts:58-64 and 193-199):
`date: ''`, `time: ''`, the other three fields `undefined`. -/
def emptyRecord : ForecastRecord := ⟨some "", some "", none, none, none⟩

/-- Models `values[i] ? values[i].trim() : undefined` (src/index.ts:67 and 202):
a missing or empty cell becomes `undefined`, otherwise the trimmed cell. -/
def cellValue (values : List String) (i : Nat) : Option String :=
  match values.get? i with
  | some s => if s = "" then none else some (strTrim s)
  | none => none

/-- Models `if (header in record) record[header] = v` — only the five known field
names are assigned, every other header is ignored. -/
def setField (r : ForecastRecord) (h : String) (v : Option String) : ForecastRecord :=
  if h = "date" then { r with date := v }
  else if h = "time" then { r with time := v }
  else if h = "load_fcst" then { r with load_fcst := v }
  else if h = "load_act" then { r with load_act := v }
  else if h = "revision" then { r with revision := v }
  else r

/-- Build one row from one line: split on commas, then positionally assign
each recognized header (src/index.ts:53-70; the chunk path repeats the
identical code at 191-204). -/
def buildRecord (headers : List String) (line : String) : ForecastRecord :=
  let values := strSplit line ','
  (headers.enum).foldl (fun r p => setField r p.2 (cellValue values p.1)) emptyRecord

/-- The trimmed header row of a file: `lines[0].split(',').map(trim)`
(src/index.ts:38 and 180). -/
def headersOf (content : String) : List String :=
  (strSplit ((strSplit content '\n').headD "") ',').map strTrim

/-- Required column names per record kind (src/index.ts:41-46); the kind is
the `type` string, `"load"` meaning ActualLoad, anything else a LoadForecast
source. -/
def expectedHeaders (ty : String) : List String :=
  if ty = "load" then ["date", "time", "load_act"]
  else ["date", "time", "load_fcst", "revision"]

/-- Models `expectedHeaders.filter(h => !headers.includes(h))` (src/index.ts:48). -/
def missingHeadersOf (content ty : String) : List String :=
  (expectedHeaders ty).filter (fun h => !(headersOf content).contains h)

/-- The two structural parse failures of `parseCSV` (src/index.ts:34-51):
`emptyInput` is the "CSV file is empty or has no data rows" throw,
`schemaError missing` the "Missing expected headers: ..." throw carrying
the missing column names in `expectedHeaders` order. -/
inductive ParseError where
  | emptyInput : ParseError
  | schemaError : List String → ParseError
deriving DecidableEq, Repr

/-- The function `parseCSV` (src/index.ts:31-76).  The empty-input check runs before the
header check; on success every line after the header becomes one row. -/
def parseCSV (csv ty : String) : Except ParseError (List ForecastRecord) :=
  let lines := strSplit csv '\n'
  if lines.length < 2 then .error .emptyInput
  else if missingHeadersOf csv ty = [] then
    .ok ((lines.drop 1).map (buildRecord (headersOf csv)))
  else .error (.schemaError (missingHeadersOf csv ty))

/-- The chunk path's row validity test (src/index.ts:207):
`record.date && record.time && (record.load_fcst || record.load_act)`. -/
def isValidRecord (r : ForecastRecord) : Bool :=
  truthy r.date && truthy r.time && (truthy r.load_fcst || truthy r.load_act)

/-- Models `record.date >= startDate && record.date <= endDate` (src/index.ts:95-97);
a JS relational comparison against `undefined` is false. -/
def inRange (s e : String) (r : ForecastRecord) : Bool :=
  match r.date with
  | none => false
  | some d => jsLe s d && jsLe d e

/-- The sort order of `getForecastData`'s result (src/index.ts:109-111):
`a.date.localeCompare(b.date) || a.time.localeCompare(b.time)`, modelled as
lexicographic comparison on the (always string-valued after the range
filter) date, then the time; an undefined side is rendered `"undefined"`
as JS string coercion does. -/
def recLE (a b : ForecastRecord) : Prop :=
  jsLt (keyStr a.date) (keyStr b.date) = true ∨
    (keyStr a.date = keyStr b.date ∧ jsLe (keyStr a.time) (keyStr b.time) = true)

instance : DecidableRel recLE := fun a b =>
  inferInstanceAs (Decidable (jsLt (keyStr a.date) (keyStr b.date) = true ∨
    (keyStr a.date = keyStr b.date ∧ jsLe (keyStr a.time) (keyStr b.time) = true)))

/-- Models `Array.prototype.sort` with the comparator above (a stable sort producing
a list sorted under `recLE`). -/
def sortRecords (l : List ForecastRecord) : List ForecastRecord :=
  List.insertionSort recLE l

inductive QueryError where
  | notFound : QueryError
  | parseFailed : ParseError → QueryError
deriving DecidableEq, Repr

/-- The method `getForecastData` (src/index.ts:87-112): fetch `${type}_load_fcst_archive.csv`,
parse, filter by date range, dedup with the read-path comparator, sort. -/
def getForecastData (pd : String → Option Int) (bucket : String → Option String)
    (ty startDate endDate : String) : Except QueryError (List ForecastRecord) :=
  match bucket (ty ++ "_load_fcst_archive.csv") with
  | none => .error .notFound
  | some content =>
    match parseCSV content ty with
    | .error e => .error (.parseFailed e)
    | .ok records =>
      let filtered := records.filter (inRange startDate endDate)
      .ok (sortRecords (dedupValues (shouldReplaceRead pd) filtered))

/-- Models `record[fieldName]` where `fieldName` is `'load_act'` for type `'load'`
and `'load_fcst'` otherwise (src/index.ts:116,136). -/
def valueField (ty : String) (r : ForecastRecord) : Option String :=
  if ty = "load" then r.load_act else r.load_fcst

/-- Observable outcome of the storage-writer loop (src/index.ts:132-161):
the two counters plus, as the loop's effect trace, the list of records whose
upsert was actually attempted (issued to the database), in issue order. -/
structure StoreOutcome where
  inserted : Nat
  errors : Nat
  attempted : List ForecastRecord
deriving DecidableEq, Repr

/-- One iteration of the writer loop (src/index.ts:135-161): a record whose
value field is `undefined` is skipped; otherwise the upsert is attempted and
exactly one of the two counters is bumped, the loop always continuing. -/
def storeStep (upsertOk : ForecastRecord → Bool) (ty : String)
    (st : StoreOutcome) (r : ForecastRecord) : StoreOutcome :=
  match valueField ty r with
  | none => st
  | some _ =>
    if upsertOk r then
      { st with inserted := st.inserted + 1, attempted := st.attempted ++ [r] }
    else
      { st with errors := st.errors + 1, attempted := st.attempted ++ [r] }

/-- The method `storeForecastData` (src/index.ts:114-165): dedup the batch with the
write-path comparator, then run the writer loop over `Object.values`. -/
def storeForecastDataFull (pd : String → Option Int) (upsertOk : ForecastRecord → Bool)
    (ty : String) (data : List ForecastRecord) : StoreOutcome :=
  (dedupValues (shouldReplaceWrite pd) data).foldl (storeStep upsertOk ty) ⟨0, 0, []⟩

/-- The return value of `storeForecastData`: the count of successful upserts. -/
def storeForecastData (pd : String → Option Int) (upsertOk : ForecastRecord → Bool)
    (ty : String) (data : List ForecastRecord) : Nat :=
  (storeForecastDataFull pd upsertOk ty data).inserted

/-- The only failure `processCSVChunk` itself raises (src/index.ts:176). -/
inductive ChunkError where
  | notFound : ChunkError
deriving DecidableEq, Repr

/-- The result object of `processCSVChunk` (src/index.ts:235-242). -/
structure ChunkResult where
  processedLines : Nat
  validRecords : Nat
  invalidRecords : Nat
  duplicateRecords : Nat
  insertedCount : Nat
  hasMore : Bool
deriving DecidableEq, Repr

/-- Record-kind inference from the file name (src/index.ts:182). -/
def chunkType (fileName : String) : String :=
  if strStartsWith fileName "load_act" then "load"
  else strToLower ((strSplit fileName '_').headD "")

/-- Models `lines.slice(startLine, startLine + chunkSize)` (src/index.ts:191). -/
def chunkWindow (lines : List String) (s c : Nat) : List String :=
  (lines.drop s).take c

/-- The window's rows that pass the validity test, in order
(src/index.ts:191-215: map then filter out the `null`s). -/
def chunkRecords (headers : List String) (window : List String) : List ForecastRecord :=
  window.filterMap (fun line =>
    let r := buildRecord headers line
    if isValidRecord r then some r else none)

/-- The method `processCSVChunk` (src/index.ts:174-243). -/
def processCSVChunk (pd : String → Option Int) (upsertOk : ForecastRecord → Bool)
    (bucket : String → Option String) (fileName : String)
    (startLine chunkSize : Nat) : Except ChunkError ChunkResult :=
  match bucket fileName with
  | none => .error .notFound
  | some content =>
    let lines := strSplit content '\n'
    let headers := headersOf content
    let window := chunkWindow lines startLine chunkSize
    let records := chunkRecords headers window
    let folded := dedupCountAux (shouldReplaceWrite pd) [] 0 records
    .ok
      { processedLines := chunkSize
        validRecords := window.countP (fun l => isValidRecord (buildRecord headers l))
        invalidRecords := window.countP (fun l => !isValidRecord (buildRecord headers l))
        duplicateRecords := folded.2
        insertedCount :=
          storeForecastData pd upsertOk (chunkType fileName) (folded.1.map Prod.snd)
        hasMore := decide (startLine + chunkSize < lines.length) }

/-- The caller protocol of §4.3 of the spec: the successive line windows
visited when `startLine` starts at `s` and advances by `chunkSize` until
`hasMore` (`startLine + chunkSize < lines.length`) is false.  The `0 < c`
guard makes the recursion well-founded; a caller with `chunkSize = 0` never
terminates, and every claim about the protocol assumes a positive chunk. -/
def chunkWindowsFrom (lines : List String) (c : Nat) (s : Nat) : List (List String) :=
  if 0 < c ∧ s + c < lines.length then
    chunkWindow lines s c :: chunkWindowsFrom lines c (s + c)
  else [chunkWindow lines s c]
termination_by lines.length - s
decreasing_by omega

/-- Sum over the protocol's calls of that call's `validRecords`. -/
def driveValidSum (headers : List String) (lines : List String) (c s : Nat) : Nat :=
  ((chunkWindowsFrom lines c s).map
    (fun w => w.countP (fun l => isValidRecord (buildRecord headers l)))).sum

instance {ε α : Type} [DecidableEq ε] [DecidableEq α] : DecidableEq (Except ε α)
  | .error e, .error f => decidable_of_iff (e = f) (by simp)
  | .error _, .ok _ => isFalse (by simp)
  | .ok _, .error _ => isFalse (by simp)
  | .ok a, .ok b => decidable_of_iff (a = b) (by simp)

/-- A concrete date parser used to instantiate the `pd` parameter in
witnesses: parses a non-empty all-digit string as a number, anything else
as Invalid Date. -/
def pdNum (s : String) : Option Int :=
  match s.data with
  | [] => none
  | l =>
    (l.foldl
      (fun acc c =>
        match acc with
        | none => none
        | some n => if c.isDigit then some (n * 10 + (c.toNat - 48)) else none)
      (some 0)).map Int.ofNat

/-! ## Helper lemmas about the keyed accumulator and the dedup fold -/

theorem mem_setKey {k : String} {v : ForecastRecord} {kv : String × ForecastRecord} :
    ∀ {acc : List (String × ForecastRecord)}, kv ∈ setKey acc k v → kv = (k, v) ∨ kv ∈ acc
  | [], h => by simpa [setKey] using h
  | (k', v') :: tl, h => by
    by_cases hk : k' = k
    · simp only [setKey, if_pos hk] at h
      rcases List.mem_cons.mp h with h | h
      · exact Or.inl h
      · exact Or.inr (List.mem_cons_of_mem _ h)
    · simp only [setKey, if_neg hk] at h
      rcases List.mem_cons.mp h with h | h
      · exact Or.inr (by simp [h])
      · rcases mem_setKey h with h' | h'
        · exact Or.inl h'
        · exact Or.inr (List.mem_cons_of_mem _ h')

theorem getKey_mem {k : String} {e : ForecastRecord} :
    ∀ {acc : List (String × ForecastRecord)}, getKey acc k = some e → (k, e) ∈ acc
  | [], h => by simp [getKey] at h
  | (k', v') :: tl, h => by
    by_cases hk : k' = k
    · simp only [getKey, if_pos hk] at h
      injection h with h'
      subst hk; subst h'
      exact List.mem_cons_self _ _
    · simp only [getKey, if_neg hk] at h
      exact List.mem_cons_of_mem _ (getKey_mem h)

/-- The dedup fold distributes over list append. -/
theorem dedupCountAux_append (repl : Option ForecastRecord → ForecastRecord → Bool)
    (xs ys : List ForecastRecord) :
    ∀ acc d, dedupCountAux repl acc d (xs ++ ys) =
      dedupCountAux repl (dedupCountAux repl acc d xs).1 (dedupCountAux repl acc d xs).2 ys := by
  induction xs with
  | nil => intro acc d; simp [dedupCountAux]
  | cons r rs ih =>
    intro acc d
    simp only [List.cons_append, dedupCountAux]
    by_cases h : repl (getKey acc (recKey r)) r = true
    · simp only [if_pos h]; exact ih _ _
    · simp only [if_neg h]; exact ih _ _

/-! ## C1: latest revision wins in the write-path dedup, in either order -/

/-- C1: for two LoadForecast rows sharing the same `(date, time)` key whose
revisions both parse as timestamps with `t1 < t2`, the write-path
deduplication fold (used by `storeForecastData` and `processCSVChunk`)
resolves the key to the row with the larger revision, whichever of the two
input orders the rows arrive in. -/
theorem c1_latest_revision_wins (pd : String → Option Int) (a b : ForecastRecord)
    (r1 r2 : String) (t1 t2 : Int)
    (hd : a.date = b.date) (ht : a.time = b.time)
    (ha : a.revision = some r1) (hb : b.revision = some r2)
    (h1 : r1 ≠ "") (h2 : r2 ≠ "")
    (hp1 : pd r1 = some t1) (hp2 : pd r2 = some t2) (hlt : t1 < t2) :
    dedupValues (shouldReplaceWrite pd) [a, b] = [b] ∧
    dedupValues (shouldReplaceWrite pd) [b, a] = [b] := by
  have hkey : recKey a = recKey b := by simp [recKey, hd, ht]
  constructor
  · simp [dedupValues, dedupRecords, dedupCountAux, getKey, setKey, hkey,
      shouldReplaceWrite, truthy, revNewer, ha, hb, hp1, hp2, hlt, h1, h2]
  · simp [dedupValues, dedupRecords, dedupCountAux, getKey, setKey, hkey.symm,
      shouldReplaceWrite, truthy, revNewer, ha, hb, hp1, hp2, h1, h2,
      not_lt.mpr (le_of_lt hlt)]

/-- C1 witness: the theorem applied at a concrete pair of rows. -/
theorem c1_latest_revision_wins_witness :
    dedupValues (shouldReplaceWrite pdNum)
      [⟨some "2024-01-01", some "00:00", some "100", none, some "1"⟩,
       ⟨some "2024-01-01", some "00:00", some "105", none, some "2"⟩] =
      [⟨some "2024-01-01", some "00:00", some "105", none, some "2"⟩] ∧
    dedupValues (shouldReplaceWrite pdNum)
      [⟨some "2024-01-01", some "00:00", some "105", none, some "2"⟩,
       ⟨some "2024-01-01", some "00:00", some "100", none, some "1"⟩] =
      [⟨some "2024-01-01", some "00:00", some "105", none, some "2"⟩] :=
  c1_latest_revision_wins pdNum
    ⟨some "2024-01-01", some "00:00", some "100", none, some "1"⟩
    ⟨some "2024-01-01", some "00:00", some "105", none, some "2"⟩
    "1" "2" 1 2 rfl rfl rfl rfl (by decide) (by decide) (by decide) (by decide) (by decide)

/-! ## C2: read-path vs write-path comparators -/

/-- C2 counterexample: the two comparators are not behaviorally identical.
On the sequence [row without revision, row with revision] for one key, the
write-path fold (`storeForecastData`, `processCSVChunk`) replaces the stored
row, while the read-path fold (`getForecastData`) keeps it. -/
theorem c2_comparators_differ_counterexample :
    dedupValues (shouldReplaceWrite pdNum)
      [⟨some "2024-01-01", some "00:00", some "100", none, none⟩,
       ⟨some "2024-01-01", some "00:00", some "105", none, some "2024-01-02T00:00:00Z"⟩] =
      [⟨some "2024-01-01", some "00:00", some "105", none, some "2024-01-02T00:00:00Z"⟩] ∧
    dedupValues (shouldReplaceRead pdNum)
      [⟨some "2024-01-01", some "00:00", some "100", none, none⟩,
       ⟨some "2024-01-01", some "00:00", some "105", none, some "2024-01-02T00:00:00Z"⟩] =
      [⟨some "2024-01-01", some "00:00", some "100", none, none⟩] ∧
    (⟨some "2024-01-01", some "00:00", some "100", none, none⟩ : ForecastRecord) ≠
      ⟨some "2024-01-01", some "00:00", some "105", none, some "2024-01-02T00:00:00Z"⟩ := by
  refine ⟨by decide, by decide, by decide⟩

/-- When every incoming row carries a truthy revision (and so does everything
already stored), the write-path and read-path folds take identical steps. -/
theorem dedupCountAux_eq_of_allRev (pd : String → Option Int) :
    ∀ (rows : List ForecastRecord) (acc : List (String × ForecastRecord)) (d : Nat),
      (∀ r ∈ rows, truthy r.revision = true) →
      (∀ kv ∈ acc, truthy kv.2.revision = true) →
      dedupCountAux (shouldReplaceWrite pd) acc d rows =
        dedupCountAux (shouldReplaceRead pd) acc d rows
  | [], _, _, _, _ => rfl
  | r :: rs, acc, d, hrows, hacc => by
    have hr : truthy r.revision = true := hrows r (List.mem_cons_self _ _)
    have hrs : ∀ x ∈ rs, truthy x.revision = true :=
      fun x hx => hrows x (List.mem_cons_of_mem _ hx)
    have hcond : shouldReplaceWrite pd (getKey acc (recKey r)) r =
        shouldReplaceRead pd (getKey acc (recKey r)) r := by
      cases hg : getKey acc (recKey r) with
      | none => rfl
      | some e =>
        have he : truthy e.revision = true := hacc (recKey r, e) (getKey_mem hg)
        simp [shouldReplaceWrite, shouldReplaceRead, he]
    have hacc' : ∀ kv ∈ setKey acc (recKey r) r, truthy kv.2.revision = true := by
      intro kv hkv
      rcases mem_setKey hkv with h | h
      · rw [h]; exact hr
      · exact hacc kv h
    simp only [dedupCountAux, hcond]
    by_cases hb : shouldReplaceRead pd (getKey acc (recKey r)) r = true
    · simp only [if_pos hb]
      exact dedupCountAux_eq_of_allRev pd rs _ d hrs hacc'
    · simp only [if_neg hb]
      exact dedupCountAux_eq_of_allRev pd rs acc (d + 1) hrs hacc

/-- When no incoming row carries a truthy revision, both folds reduce to
"keep the first row seen for each key" and take identical steps. -/
theorem dedupCountAux_eq_of_noRev (pd : String → Option Int) :
    ∀ (rows : List ForecastRecord) (acc : List (String × ForecastRecord)) (d : Nat),
      (∀ r ∈ rows, truthy r.revision = false) →
      dedupCountAux (shouldReplaceWrite pd) acc d rows =
        dedupCountAux (shouldReplaceRead pd) acc d rows
  | [], _, _, _ => rfl
  | r :: rs, acc, d, hrows => by
    have hr : truthy r.revision = false := hrows r (List.mem_cons_self _ _)
    have hrs : ∀ x ∈ rs, truthy x.revision = false :=
      fun x hx => hrows x (List.mem_cons_of_mem _ hx)
    have hcond : shouldReplaceWrite pd (getKey acc (recKey r)) r =
        shouldReplaceRead pd (getKey acc (recKey r)) r := by
      cases hg : getKey acc (recKey r) with
      | none => rfl
      | some e => simp [shouldReplaceWrite, shouldReplaceRead, hr]
    simp only [dedupCountAux, hcond]
    by_cases hb : shouldReplaceRead pd (getKey acc (recKey r)) r = true
    · simp only [if_pos hb]
      exact dedupCountAux_eq_of_noRev pd rs _ d hrs
    · simp only [if_neg hb]
      exact dedupCountAux_eq_of_noRev pd rs acc (d + 1) hrs

/-- C2 amended: the two comparators agree on every sequence in which either
all rows carry a truthy revision or none does; they diverge exactly when a
revision-carrying row meets a stored revision-less row (the write path
replaces it, the read path keeps it — see the counterexample). -/
theorem c2_comparators_agree_amended (pd : String → Option Int)
    (rows : List ForecastRecord)
    (h : (∀ r ∈ rows, truthy r.revision = true) ∨ (∀ r ∈ rows, truthy r.revision = false)) :
    dedupRecords (shouldReplaceWrite pd) rows = dedupRecords (shouldReplaceRead pd) rows := by
  unfold dedupRecords
  cases h with
  | inl h => rw [dedupCountAux_eq_of_allRev pd rows [] 0 h (by simp)]
  | inr h => rw [dedupCountAux_eq_of_noRev pd rows [] 0 h]

/-- C2 amended witness: the amended theorem applied to a concrete
all-revisions sequence. -/
theorem c2_comparators_agree_amended_witness :
    dedupRecords (shouldReplaceWrite pdNum)
      [⟨some "2024-01-01", some "00:00", some "100", none, some "1"⟩,
       ⟨some "2024-01-01", some "00:00", some "105", none, some "2"⟩] =
    dedupRecords (shouldReplaceRead pdNum)
      [⟨some "2024-01-01", some "00:00", some "100", none, some "1"⟩,
       ⟨some "2024-01-01", some "00:00", some "105", none, some "2"⟩] :=
  c2_comparators_agree_amended pdNum
    [⟨some "2024-01-01", some "00:00", some "100", none, some "1"⟩,
     ⟨some "2024-01-01", some "00:00", some "105", none, some "2"⟩]
    (Or.inl (by decide))

/-! ## C3: revision-less duplicate keys -/

/-- C3 counterexample: when the incoming row carries no revision and a row
already exists for its key, the write-path fold does **not** overwrite — the
first-seen row wins, both in the fold itself and end-to-end through
`storeForecastData` (whose upsert is attempted only for the first row). -/
theorem c3_last_seen_counterexample :
    dedupValues (shouldReplaceWrite pdNum)
      [⟨some "2024-01-01", some "00:00", none, some "500", none⟩,
       ⟨some "2024-01-01", some "00:00", none, some "600", none⟩] =
      [⟨some "2024-01-01", some "00:00", none, some "500", none⟩] ∧
    (storeForecastDataFull pdNum (fun _ => true) "load"
      [⟨some "2024-01-01", some "00:00", none, some "500", none⟩,
       ⟨some "2024-01-01", some "00:00", none, some "600", none⟩]).attempted =
      [⟨some "2024-01-01", some "00:00", none, some "500", none⟩] ∧
    (⟨some "2024-01-01", some "00:00", none, some "500", none⟩ : ForecastRecord) ≠
      ⟨some "2024-01-01", some "00:00", none, some "600", none⟩ := by
  refine ⟨by decide, by decide, by decide⟩

/-- C3 amended: when the incoming row carries no (truthy) revision and a row
already exists for its `(date, time)` key, the deduplication fold keeps the
existing row unchanged — for revision-less duplicate keys the first-seen row
wins.  (Appending such a row to any input sequence leaves the fold's mapping
untouched.) -/
theorem c3_no_revision_first_seen_amended (pd : String → Option Int)
    (rows : List ForecastRecord) (r : ForecastRecord)
    (hrev : truthy r.revision = false)
    (hex : (getKey (dedupRecords (shouldReplaceWrite pd) rows) (recKey r)).isSome = true) :
    dedupRecords (shouldReplaceWrite pd) (rows ++ [r]) =
      dedupRecords (shouldReplaceWrite pd) rows := by
  unfold dedupRecords at *
  rw [dedupCountAux_append]
  obtain ⟨e, he⟩ := Option.isSome_iff_exists.mp hex
  simp [dedupCountAux, he, shouldReplaceWrite, hrev]

/-- C3 amended witness: the amended theorem applied at a concrete pair of
revision-less rows with equal keys. -/
theorem c3_no_revision_first_seen_amended_witness :
    truthy (⟨some "2024-01-01", some "00:00", none, some "600", none⟩ :
        ForecastRecord).revision = false ∧
    (getKey (dedupRecords (shouldReplaceWrite pdNum)
        [⟨some "2024-01-01", some "00:00", none, some "500", none⟩])
      (recKey ⟨some "2024-01-01", some "00:00", none, some "600", none⟩)).isSome = true ∧
    dedupRecords (shouldReplaceWrite pdNum)
      ([⟨some "2024-01-01", some "00:00", none, some "500", none⟩] ++
        [⟨some "2024-01-01", some "00:00", none, some "600", none⟩]) =
      dedupRecords (shouldReplaceWrite pdNum)
        [⟨some "2024-01-01", some "00:00", none, some "500", none⟩] :=
  ⟨by decide, by decide,
    c3_no_revision_first_seen_amended pdNum
      [⟨some "2024-01-01", some "00:00", none, some "500", none⟩]
      ⟨some "2024-01-01", some "00:00", none, some "600", none⟩
      (by decide) (by decide)⟩

/-! ## C4: hasMore and chunk-window exhaustiveness -/

/-- Advancing by `c` through `chunkWindowsFrom` visits exactly the lines from
`s` on: the concatenation of the visited windows is `lines.drop s`. -/
theorem chunkWindowsFrom_join (lines : List String) (c : Nat) (hc : 0 < c) (s : Nat) :
    (chunkWindowsFrom lines c s).flatten = lines.drop s := by
  rw [chunkWindowsFrom]
  split
  · next h =>
    rw [List.flatten_cons, chunkWindowsFrom_join lines c hc (s + c), chunkWindow]
    have hdd : lines.drop (s + c) = (lines.drop s).drop c := by
      rw [List.drop_drop, Nat.add_comm]
    rw [hdd, List.take_append_drop]
  · next h =>
    have hlen : lines.length ≤ s + c := by
      rcases Nat.lt_or_ge (s + c) lines.length with h' | h'
      · exact absurd ⟨hc, h'⟩ h
      · exact h'
    have : (lines.drop s).length ≤ c := by
      rw [List.length_drop]; omega
    simp [chunkWindow, List.take_of_length_le this]
termination_by lines.length - s
decreasing_by
  rename_i h
  omega

/-- Sum of per-window valid-row counts over the protocol equals the count
over all lines from `s` on. -/
theorem driveValidSum_eq (headers lines : List String) (c : Nat) (hc : 0 < c) (s : Nat) :
    driveValidSum headers lines c s =
      ((lines.drop s).countP (fun l => isValidRecord (buildRecord headers l))) := by
  unfold driveValidSum
  rw [← chunkWindowsFrom_join lines c hc s, List.countP_flatten]

/-- C4: for every file present in storage, `processCSVChunk` returns
`hasMore = (startLine + chunkSize < total line count)` and per-call
`validRecords` equal to the window's valid-line count; and driving the call
protocol from `startLine = 1`, advancing by `chunkSize` until `hasMore` is
false, the windows concatenate to exactly the data lines (each data line is
in exactly one window), hence the sum of `validRecords` over the calls
equals the number of structurally valid data lines of the file. -/
theorem c4_chunk_exhaustive (pd : String → Option Int) (upsertOk : ForecastRecord → Bool)
    (bucket : String → Option String) (fileName content : String) (c : Nat)
    (hb : bucket fileName = some content) (hc : 0 < c) :
    (∀ s res, processCSVChunk pd upsertOk bucket fileName s c = .ok res →
      (res.hasMore = true ↔ s + c < (strSplit content '\n').length) ∧
      res.validRecords = (chunkWindow (strSplit content '\n') s c).countP
        (fun l => isValidRecord (buildRecord (headersOf content) l))) ∧
    (chunkWindowsFrom (strSplit content '\n') c 1).flatten = (strSplit content '\n').drop 1 ∧
    driveValidSum (headersOf content) (strSplit content '\n') c 1 =
      ((strSplit content '\n').drop 1).countP
        (fun l => isValidRecord (buildRecord (headersOf content) l)) := by
  refine ⟨?_, chunkWindowsFrom_join _ c hc 1, driveValidSum_eq _ _ c hc 1⟩
  intro s res hres
  rw [processCSVChunk, hb] at hres
  simp only [Except.ok.injEq] at hres
  subst hres
  exact ⟨by simp, rfl⟩

/-- C4 witness: the theorem applied to a concrete five-line file with
chunk size 2 (two calls, the first reporting `hasMore`). -/
theorem c4_chunk_exhaustive_witness :
    ((fun n => if n = "d_load_fcst_archive.csv"
        then some "date,time,load_fcst,revision\na,b,1,1\nc,d,2,1\n,,,\ne,f,3,1"
        else none) "d_load_fcst_archive.csv" =
      some "date,time,load_fcst,revision\na,b,1,1\nc,d,2,1\n,,,\ne,f,3,1") ∧
    0 < 2 ∧
    ((∀ s res, processCSVChunk pdNum (fun _ => true)
        (fun n => if n = "d_load_fcst_archive.csv"
          then some "date,time,load_fcst,revision\na,b,1,1\nc,d,2,1\n,,,\ne,f,3,1"
          else none) "d_load_fcst_archive.csv" s 2 = .ok res →
      (res.hasMore = true ↔
        s + 2 < (strSplit "date,time,load_fcst,revision\na,b,1,1\nc,d,2,1\n,,,\ne,f,3,1" '\n').length) ∧
      res.validRecords =
        (chunkWindow (strSplit "date,time,load_fcst,revision\na,b,1,1\nc,d,2,1\n,,,\ne,f,3,1" '\n') s 2).countP
          (fun l => isValidRecord
            (buildRecord (headersOf "date,time,load_fcst,revision\na,b,1,1\nc,d,2,1\n,,,\ne,f,3,1") l))) ∧
    (chunkWindowsFrom (strSplit "date,time,load_fcst,revision\na,b,1,1\nc,d,2,1\n,,,\ne,f,3,1" '\n') 2 1).flatten =
      (strSplit "date,time,load_fcst,revision\na,b,1,1\nc,d,2,1\n,,,\ne,f,3,1" '\n').drop 1 ∧
    driveValidSum (headersOf "date,time,load_fcst,revision\na,b,1,1\nc,d,2,1\n,,,\ne,f,3,1")
        (strSplit "date,time,load_fcst,revision\na,b,1,1\nc,d,2,1\n,,,\ne,f,3,1" '\n') 2 1 =
      ((strSplit "date,time,load_fcst,revision\na,b,1,1\nc,d,2,1\n,,,\ne,f,3,1" '\n').drop 1).countP
        (fun l => isValidRecord
          (buildRecord (headersOf "date,time,load_fcst,revision\na,b,1,1\nc,d,2,1\n,,,\ne,f,3,1") l))) :=
  ⟨rfl, by decide,
    c4_chunk_exhaustive pdNum (fun _ => true)
      (fun n => if n = "d_load_fcst_archive.csv"
        then some "date,time,load_fcst,revision\na,b,1,1\nc,d,2,1\n,,,\ne,f,3,1"
        else none)
      "d_load_fcst_archive.csv"
      "date,time,load_fcst,revision\na,b,1,1\nc,d,2,1\n,,,\ne,f,3,1" 2 rfl (by decide)⟩

/-! ## C5: the row validity predicate -/

/-- Modelled from the spec's words for C5: a row is valid iff `date` and
`time` are non-empty and at least one value field is **present** (defined,
which includes a defined-but-empty string). -/
def validPerSpecC5 (r : ForecastRecord) : Bool :=
  truthy r.date && truthy r.time && (r.load_fcst.isSome || r.load_act.isSome)

/-- A field that is defined and non-empty. -/
def nonEmptyField (o : Option String) : Prop := ∃ s, o = some s ∧ s ≠ ""

/-- Modelled from the spec's words as amended for C5: a row is valid iff
`date` and `time` are non-empty and at least one value field is non-empty. -/
def validPerSpecAmendedC5 (r : ForecastRecord) : Prop :=
  nonEmptyField r.date ∧ nonEmptyField r.time ∧
    (nonEmptyField r.load_fcst ∨ nonEmptyField r.load_act)

theorem truthy_iff_nonEmpty (o : Option String) : truthy o = true ↔ nonEmptyField o := by
  cases o with
  | none => simp [truthy, nonEmptyField]
  | some s => simp [truthy, nonEmptyField, bne_iff_ne]

/-- C5 counterexample: a row whose `load_fcst` cell is a single space parses
to the **present** field `some ""`, so the claim's predicate accepts it, but
the code's truthiness test classifies it invalid (and a chunk run counts it
in `invalidRecords`, storing nothing). -/
theorem c5_validity_counterexample :
    (buildRecord ["date", "time", "load_fcst", "revision"] "2024-01-01,00:00, ,r1").load_fcst =
      some "" ∧
    validPerSpecC5 (buildRecord ["date", "time", "load_fcst", "revision"] "2024-01-01,00:00, ,r1") =
      true ∧
    isValidRecord (buildRecord ["date", "time", "load_fcst", "revision"] "2024-01-01,00:00, ,r1") =
      false ∧
    processCSVChunk pdNum (fun _ => true)
      (fun n => if n = "d_load_fcst_archive.csv"
        then some "date,time,load_fcst,revision\n2024-01-01,00:00, ,r1" else none)
      "d_load_fcst_archive.csv" 1 5 = .ok ⟨5, 0, 1, 0, 0, false⟩ := by
  refine ⟨by decide, by decide, by decide, by decide⟩

/-- Every value of the dedup fold's final accumulator comes either from the
starting accumulator or from the input rows. -/
theorem mem_dedupCountAux_values (repl : Option ForecastRecord → ForecastRecord → Bool) :
    ∀ (rows : List ForecastRecord) (acc : List (String × ForecastRecord)) (d : Nat)
      (r : ForecastRecord),
      r ∈ (dedupCountAux repl acc d rows).1.map Prod.snd →
      r ∈ acc.map Prod.snd ∨ r ∈ rows
  | [], acc, d, r, h => Or.inl (by simpa [dedupCountAux] using h)
  | x :: xs, acc, d, r, h => by
    simp only [dedupCountAux] at h
    split at h
    · rcases mem_dedupCountAux_values repl xs _ d r h with h' | h'
      · rcases List.mem_map.mp h' with ⟨kv, hkv, hsnd⟩
        rcases mem_setKey hkv with h2 | h2
        · subst h2
          exact Or.inr (by simp [← hsnd])
        · exact Or.inl (hsnd ▸ List.mem_map_of_mem _ h2)
      · exact Or.inr (List.mem_cons_of_mem _ h')
    · rcases mem_dedupCountAux_values repl xs acc (d + 1) r h with h' | h'
      · exact Or.inl h'
      · exact Or.inr (List.mem_cons_of_mem _ h')

/-- Every record in a chunk window's valid-row list passes the validity test. -/
theorem mem_chunkRecords_valid {headers : List String} {window : List String}
    {r : ForecastRecord} (h : r ∈ chunkRecords headers window) : isValidRecord r = true := by
  unfold chunkRecords at h
  rcases List.mem_filterMap.mp h with ⟨line, _, hline⟩
  by_cases hv : isValidRecord (buildRecord headers line) = true
  · simp only [hv, if_true] at hline
    cases hline
    exact hv
  · simp [hv] at hline

/-- C5 amended: a parsed chunk row is classified valid iff its date and time
fields are non-empty and at least one of `load_fcst` / `load_act` is
**non-empty** (not merely present); every invalid row is counted in
`invalidRecords`, excluded from deduplication (only valid rows enter the
fold), and never passed to the Storage Writer (every record handed to it is
valid). -/
theorem c5_validity_amended (pd : String → Option Int) (upsertOk : ForecastRecord → Bool)
    (bucket : String → Option String) (fileName content : String) (s c : Nat)
    (res : ChunkResult)
    (hb : bucket fileName = some content)
    (hres : processCSVChunk pd upsertOk bucket fileName s c = .ok res) :
    (∀ r : ForecastRecord, isValidRecord r = true ↔ validPerSpecAmendedC5 r) ∧
    res.invalidRecords = (chunkWindow (strSplit content '\n') s c).countP
      (fun l => !isValidRecord (buildRecord (headersOf content) l)) ∧
    (∀ r ∈ chunkRecords (headersOf content) (chunkWindow (strSplit content '\n') s c),
      isValidRecord r = true) ∧
    (∀ r ∈ dedupValues (shouldReplaceWrite pd)
        (chunkRecords (headersOf content) (chunkWindow (strSplit content '\n') s c)),
      isValidRecord r = true) := by
  refine ⟨?_, ?_, ?_, ?_⟩
  · intro r
    simp only [isValidRecord, validPerSpecAmendedC5, ← truthy_iff_nonEmpty,
      Bool.and_eq_true, Bool.or_eq_true]
    tauto
  · rw [processCSVChunk, hb] at hres
    simp only [Except.ok.injEq] at hres
    subst hres
    rfl
  · intro r hr
    exact mem_chunkRecords_valid hr
  · intro r hr
    rcases mem_dedupCountAux_values (shouldReplaceWrite pd) _ [] 0 r hr with h' | h'
    · simp at h'
    · exact mem_chunkRecords_valid h'

/-- C5 amended witness: the amended theorem applied to a concrete chunk run
over one valid and one invalid line. -/
theorem c5_validity_amended_witness :
    ((fun n => if n = "d_load_fcst_archive.csv"
        then some "date,time,load_fcst,revision\na,b,1,1\n,, ,1" else none)
      "d_load_fcst_archive.csv" = some "date,time,load_fcst,revision\na,b,1,1\n,, ,1") ∧
    processCSVChunk pdNum (fun _ => true)
      (fun n => if n = "d_load_fcst_archive.csv"
        then some "date,time,load_fcst,revision\na,b,1,1\n,, ,1" else none)
      "d_load_fcst_archive.csv" 1 5 = .ok ⟨5, 1, 1, 0, 1, false⟩ ∧
    ((∀ r : ForecastRecord, isValidRecord r = true ↔ validPerSpecAmendedC5 r) ∧
    (⟨5, 1, 1, 0, 1, false⟩ : ChunkResult).invalidRecords =
      (chunkWindow (strSplit "date,time,load_fcst,revision\na,b,1,1\n,, ,1" '\n') 1 5).countP
        (fun l => !isValidRecord
          (buildRecord (headersOf "date,time,load_fcst,revision\na,b,1,1\n,, ,1") l)) ∧
    (∀ r ∈ chunkRecords (headersOf "date,time,load_fcst,revision\na,b,1,1\n,, ,1")
        (chunkWindow (strSplit "date,time,load_fcst,revision\na,b,1,1\n,, ,1" '\n') 1 5),
      isValidRecord r = true) ∧
    (∀ r ∈ dedupValues (shouldReplaceWrite pdNum)
        (chunkRecords (headersOf "date,time,load_fcst,revision\na,b,1,1\n,, ,1")
          (chunkWindow (strSplit "date,time,load_fcst,revision\na,b,1,1\n,, ,1" '\n') 1 5)),
      isValidRecord r = true)) :=
  ⟨rfl, by decide,
    c5_validity_amended pdNum (fun _ => true)
      (fun n => if n = "d_load_fcst_archive.csv"
        then some "date,time,load_fcst,revision\na,b,1,1\n,, ,1" else none)
      "d_load_fcst_archive.csv" "date,time,load_fcst,revision\na,b,1,1\n,, ,1" 1 5
      ⟨5, 1, 1, 0, 1, false⟩ rfl (by decide)⟩

/-! ## C6: schema validation in parseCSV -/

/-- C6 counterexample: a one-line input whose header lacks a required column
(`load_act` for kind ActualLoad) fails with the empty-input error, not with
a `SchemaError` naming the missing column — the length check runs first. -/
theorem c6_schema_error_counterexample :
    parseCSV "date,time" "load" = .error .emptyInput ∧
    missingHeadersOf "date,time" "load" = ["load_act"] ∧
    (ParseError.emptyInput ≠ ParseError.schemaError ["load_act"]) := by
  refine ⟨by decide, by decide, by decide⟩

/-- C6 amended: for every input with at least two lines, `parseCSV` fails
with a `SchemaError` listing exactly the kind's missing required column
names whenever the header lacks any of them, producing no partial result;
an input with fewer than two lines fails with the empty-input error instead,
even if its header also lacks required columns. -/
theorem c6_schema_error_amended (csv ty : String)
    (hlen : 2 ≤ (strSplit csv '\n').length)
    (hmiss : missingHeadersOf csv ty ≠ []) :
    parseCSV csv ty = .error (.schemaError (missingHeadersOf csv ty)) := by
  rw [parseCSV]
  rw [if_neg (by omega), if_neg hmiss]

/-- C6 amended witness: a LoadForecast file whose header omits `revision`
fails with exactly `["revision"]` listed. -/
theorem c6_schema_error_amended_witness :
    2 ≤ (strSplit "date,time,load_fcst\nx,y,z" '\n').length ∧
    missingHeadersOf "date,time,load_fcst\nx,y,z" "d" ≠ [] ∧
    missingHeadersOf "date,time,load_fcst\nx,y,z" "d" = ["revision"] ∧
    parseCSV "date,time,load_fcst\nx,y,z" "d" =
      .error (.schemaError (missingHeadersOf "date,time,load_fcst\nx,y,z" "d")) :=
  ⟨by decide, by decide, by decide,
    c6_schema_error_amended "date,time,load_fcst\nx,y,z" "d" (by decide) (by decide)⟩

/-! ## C7: order lemmas for the sort comparator -/

theorem lexLt_asymm : ∀ {x y : List Char}, lexLt x y = true → lexLt y x = false
  | [], [], h => by simp [lexLt] at h
  | [], _ :: _, _ => by simp [lexLt]
  | _ :: _, [], h => by simp [lexLt] at h
  | a :: as, b :: bs, h => by
    simp only [lexLt] at h ⊢
    rcases lt_trichotomy a b with hab | hab | hab
    · rw [if_neg (lt_asymm hab), if_pos hab]
    · subst hab
      rw [if_neg (lt_irrefl a), if_neg (lt_irrefl a)] at h ⊢
      exact lexLt_asymm h
    · rw [if_neg (lt_asymm hab), if_pos hab] at h
      exact absurd h (by simp)

theorem lexLt_trans : ∀ {x y z : List Char},
    lexLt x y = true → lexLt y z = true → lexLt x z = true
  | [], [], _, h1, _ => by simp [lexLt] at h1
  | [], _ :: _, [], _, h2 => by simp [lexLt] at h2
  | [], _ :: _, _ :: _, _, _ => by simp [lexLt]
  | _ :: _, [], _, h1, _ => by simp [lexLt] at h1
  | _ :: _, _ :: _, [], _, h2 => by simp [lexLt] at h2
  | a :: as, b :: bs, c :: cs, h1, h2 => by
    simp only [lexLt] at h1 h2 ⊢
    rcases lt_trichotomy a b with hab | hab | hab
    · rcases lt_trichotomy b c with hbc | hbc | hbc
      · rw [if_pos (lt_trans hab hbc)]
      · subst hbc; rw [if_pos hab]
      · rw [if_neg (lt_asymm hbc), if_pos hbc] at h2
        exact absurd h2 (by simp)
    · subst hab
      rw [if_neg (lt_irrefl a), if_neg (lt_irrefl a)] at h1
      rcases lt_trichotomy a c with hac | hac | hac
      · rw [if_pos hac]
      · subst hac
        rw [if_neg (lt_irrefl a), if_neg (lt_irrefl a)] at h2 ⊢
        exact lexLt_trans h1 h2
      · rw [if_neg (lt_asymm hac), if_pos hac] at h2
        exact absurd h2 (by simp)
    · rw [if_neg (lt_asymm hab), if_pos hab] at h1
      exact absurd h1 (by simp)

theorem lexLt_connex : ∀ {x y : List Char},
    lexLt x y = false → lexLt y x = false → x = y
  | [], [], _, _ => rfl
  | [], _ :: _, h1, _ => by simp [lexLt] at h1
  | _ :: _, [], _, h2 => by simp [lexLt] at h2
  | a :: as, b :: bs, h1, h2 => by
    simp only [lexLt] at h1 h2
    rcases lt_trichotomy a b with hab | hab | hab
    · rw [if_pos hab] at h1
      exact absurd h1 (by simp)
    · subst hab
      rw [if_neg (lt_irrefl a), if_neg (lt_irrefl a)] at h1 h2
      rw [lexLt_connex h1 h2]
    · rw [if_pos hab] at h2
      exact absurd h2 (by simp)

theorem jsLt_asymm {a b : String} (h : jsLt a b = true) : jsLt b a = false :=
  lexLt_asymm h

theorem jsLt_connex {a b : String} (h1 : jsLt a b = false) (h2 : jsLt b a = false) :
    a = b := by
  have h := lexLt_connex (x := a.data) (y := b.data) h1 h2
  exact congrArg String.mk h

instance : IsTotal ForecastRecord recLE := by
  constructor
  intro a b
  by_cases h1 : jsLt (keyStr a.date) (keyStr b.date) = true
  · exact Or.inl (Or.inl h1)
  by_cases h2 : jsLt (keyStr b.date) (keyStr a.date) = true
  · exact Or.inr (Or.inl h2)
  have hd : keyStr a.date = keyStr b.date :=
    jsLt_connex (Bool.not_eq_true _ ▸ h1) (Bool.not_eq_true _ ▸ h2)
  by_cases h3 : jsLt (keyStr b.time) (keyStr a.time) = true
  · refine Or.inr (Or.inr ⟨hd.symm, ?_⟩)
    simp [jsLe, jsLt_asymm h3]
  · refine Or.inl (Or.inr ⟨hd, ?_⟩)
    simp only [jsLe, Bool.not_eq_true']
    exact Bool.not_eq_true _ ▸ h3

instance : IsTrans ForecastRecord recLE := by
  constructor
  intro a b c hab hbc
  rcases hab with hab | ⟨habd, habt⟩
  · rcases hbc with hbc | ⟨hbcd, _⟩
    · exact Or.inl (lexLt_trans hab hbc)
    · exact Or.inl (hbcd ▸ hab)
  · rcases hbc with hbc | ⟨hbcd, hbct⟩
    · exact Or.inl (habd ▸ hbc)
    · refine Or.inr ⟨habd.trans hbcd, ?_⟩
      simp only [jsLe, Bool.not_eq_true'] at habt hbct ⊢
      by_cases hca : jsLt (keyStr c.time) (keyStr a.time) = true
      · exfalso
        by_cases hcb : jsLt (keyStr c.time) (keyStr b.time) = true
        · exact absurd hcb (by simp [hbct])
        · by_cases hbc2 : jsLt (keyStr b.time) (keyStr c.time) = true
          · exact absurd (lexLt_trans hbc2 hca) (by simp only [jsLt] at habt; simp [habt])
          · have heq : keyStr b.time = keyStr c.time :=
              jsLt_connex (Bool.not_eq_true _ ▸ hbc2) (Bool.not_eq_true _ ▸ hcb)
            exact absurd (heq.symm ▸ hca) (by simp [habt])
      · exact Bool.not_eq_true _ ▸ hca

/-! ## Key bookkeeping of the dedup accumulator -/

theorem getKey_eq_none_iff {k : String} :
    ∀ {acc : List (String × ForecastRecord)}, getKey acc k = none ↔ k ∉ acc.map Prod.fst
  | [] => by simp [getKey]
  | (k', v') :: tl => by
    by_cases hk : k' = k
    · subst hk
      simp [getKey]
    · simp only [getKey, if_neg hk, List.map_cons, List.mem_cons]
      rw [getKey_eq_none_iff]
      constructor
      · intro h hmem
        rcases hmem with h' | h'
        · exact hk h'.symm
        · exact h h'
      · intro h h'
        exact h (Or.inr h')

theorem map_fst_setKey (k : String) (v : ForecastRecord) :
    ∀ (acc : List (String × ForecastRecord)),
      (setKey acc k v).map Prod.fst =
        if k ∈ acc.map Prod.fst then acc.map Prod.fst else acc.map Prod.fst ++ [k]
  | [] => by simp [setKey]
  | (k', v') :: tl => by
    by_cases hk : k' = k
    · subst hk
      simp [setKey]
    · have hne : ¬ k = k' := fun h => hk h.symm
      simp only [setKey, if_neg hk, List.map_cons, map_fst_setKey k v tl, List.mem_cons]
      by_cases hmem : k ∈ tl.map Prod.fst
      · rw [if_pos hmem, if_pos (Or.inr hmem)]
      · rw [if_neg hmem, if_neg (by tauto), List.cons_append]

/-- Every entry of the fold's accumulator is keyed by its own row's key. -/
theorem dedupCountAux_key_eq (repl : Option ForecastRecord → ForecastRecord → Bool) :
    ∀ (rows : List ForecastRecord) (acc : List (String × ForecastRecord)) (d : Nat),
      (∀ kv ∈ acc, kv.1 = recKey kv.2) →
      ∀ kv ∈ (dedupCountAux repl acc d rows).1, kv.1 = recKey kv.2
  | [], acc, d, hacc => by simpa [dedupCountAux] using hacc
  | r :: rs, acc, d, hacc => by
    simp only [dedupCountAux]
    split
    · refine dedupCountAux_key_eq repl rs _ d ?_
      intro kv hkv
      rcases mem_setKey hkv with h | h
      · rw [h]
      · exact hacc kv h
    · exact dedupCountAux_key_eq repl rs acc (d + 1) hacc

/-- The fold never introduces a duplicate key. -/
theorem dedupCountAux_keys_nodup (repl : Option ForecastRecord → ForecastRecord → Bool) :
    ∀ (rows : List ForecastRecord) (acc : List (String × ForecastRecord)) (d : Nat),
      (acc.map Prod.fst).Nodup →
      ((dedupCountAux repl acc d rows).1.map Prod.fst).Nodup
  | [], acc, d, hacc => by simpa [dedupCountAux] using hacc
  | r :: rs, acc, d, hacc => by
    simp only [dedupCountAux]
    split
    · refine dedupCountAux_keys_nodup repl rs _ d ?_
      rw [map_fst_setKey]
      by_cases hmem : recKey r ∈ acc.map Prod.fst
      · rwa [if_pos hmem]
      · rw [if_neg hmem]
        simp [List.nodup_append, hacc, hmem]
    · exact dedupCountAux_keys_nodup repl rs acc (d + 1) hacc

/-- The final accumulator's key set is the starting key set united with the
keys of the input rows, provided an absent key is always inserted. -/
theorem dedupCountAux_keys_toFinset (repl : Option ForecastRecord → ForecastRecord → Bool)
    (hrepl : ∀ r, repl none r = true) :
    ∀ (rows : List ForecastRecord) (acc : List (String × ForecastRecord)) (d : Nat),
      ((dedupCountAux repl acc d rows).1.map Prod.fst).toFinset =
        (acc.map Prod.fst).toFinset ∪ (rows.map recKey).toFinset
  | [], acc, d => by simp [dedupCountAux]
  | r :: rs, acc, d => by
    simp only [dedupCountAux]
    split
    · rw [dedupCountAux_keys_toFinset repl hrepl rs _ d, map_fst_setKey]
      by_cases hmem : recKey r ∈ acc.map Prod.fst
      · rw [if_pos hmem]
        ext a
        simp only [Finset.mem_union, List.mem_toFinset, List.map_cons, List.mem_cons]
        constructor
        · rintro (h | h)
          · exact Or.inl h
          · exact Or.inr (Or.inr h)
        · rintro (h | h | h)
          · exact Or.inl h
          · exact Or.inl (h ▸ hmem)
          · exact Or.inr h
      · rw [if_neg hmem]
        ext a
        simp only [Finset.mem_union, List.mem_toFinset, List.mem_append,
          List.mem_singleton, List.map_cons, List.mem_cons]
        tauto
    · next hcond =>
      have hmem : recKey r ∈ acc.map Prod.fst := by
        by_contra hmem
        have hnone : getKey acc (recKey r) = none := getKey_eq_none_iff.mpr hmem
        rw [hnone, hrepl r] at hcond
        exact hcond rfl
      rw [dedupCountAux_keys_toFinset repl hrepl rs acc (d + 1)]
      ext a
      simp only [Finset.mem_union, List.mem_toFinset, List.map_cons, List.mem_cons]
      constructor
      · rintro (h | h)
        · exact Or.inl h
        · exact Or.inr (Or.inr h)
      · rintro (h | h | h)
        · exact Or.inl h
        · exact Or.inl (h ▸ hmem)
        · exact Or.inr h

/-- C7: for every present backing file, `getForecastData` returns exactly
the read-path-deduplicated rows of the parsed file whose `date` lies within
`[startDate, endDate]` under lexical string comparison (a permutation of
that list, with every returned row in range and at most one row per
`(date, time)` key), sorted ascending by `(date, time)` lexically. -/
theorem c7_query_range (pd : String → Option Int) (bucket : String → Option String)
    (ty startDate endDate content : String) (rs : List ForecastRecord)
    (hb : bucket (ty ++ "_load_fcst_archive.csv") = some content)
    (hq : getForecastData pd bucket ty startDate endDate = .ok rs) :
    ∃ records, parseCSV content ty = .ok records ∧
      rs.Perm (dedupValues (shouldReplaceRead pd)
        (records.filter (inRange startDate endDate))) ∧
      List.Sorted recLE rs ∧
      (∀ r ∈ rs, inRange startDate endDate r = true) ∧
      (rs.map recKey).Nodup := by
  rw [getForecastData, hb] at hq
  dsimp only at hq
  cases hparse : parseCSV content ty with
  | error e =>
    rw [hparse] at hq
    exact absurd hq (by simp)
  | ok records =>
    rw [hparse] at hq
    simp only [Except.ok.injEq] at hq
    subst hq
    refine ⟨records, rfl, ?_, ?_, ?_, ?_⟩
    · exact List.perm_insertionSort recLE _
    · exact List.sorted_insertionSort recLE _
    · intro r hr
      have hr' : r ∈ dedupValues (shouldReplaceRead pd)
          (records.filter (inRange startDate endDate)) :=
        (List.perm_insertionSort recLE _).mem_iff.mp hr
      rcases mem_dedupCountAux_values _ _ [] 0 r hr' with h | h
      · simp at h
      · exact (List.mem_filter.mp h).2
    · have hperm :
          (sortRecords (dedupValues (shouldReplaceRead pd)
            (records.filter (inRange startDate endDate)))).map recKey |>.Perm
          ((dedupValues (shouldReplaceRead pd)
            (records.filter (inRange startDate endDate))).map recKey) :=
        (List.perm_insertionSort recLE _).map recKey
      rw [hperm.nodup_iff]
      have hkeys : (dedupValues (shouldReplaceRead pd)
          (records.filter (inRange startDate endDate))).map recKey =
          (dedupRecords (shouldReplaceRead pd)
            (records.filter (inRange startDate endDate))).map Prod.fst := by
        unfold dedupValues
        rw [List.map_map]
        refine (List.map_congr_left ?_).symm
        intro kv hkv
        exact dedupCountAux_key_eq _ _ [] 0 (by simp) kv hkv
      rw [hkeys]
      exact dedupCountAux_keys_nodup _ _ [] 0 (by simp)

/-- C7 witness: the theorem applied to a concrete two-row file whose rows
come back filtered, deduplicated and sorted. -/
theorem c7_query_range_witness :
    ((fun n => if n = "d_load_fcst_archive.csv"
        then some "date,time,load_fcst,revision\n2024-01-02,01:00,5,1\n2024-01-01,00:30,7,2\n2025-01-01,00:00,9,1"
        else none) ("d" ++ "_load_fcst_archive.csv") =
      some "date,time,load_fcst,revision\n2024-01-02,01:00,5,1\n2024-01-01,00:30,7,2\n2025-01-01,00:00,9,1") ∧
    getForecastData pdNum
      (fun n => if n = "d_load_fcst_archive.csv"
        then some "date,time,load_fcst,revision\n2024-01-02,01:00,5,1\n2024-01-01,00:30,7,2\n2025-01-01,00:00,9,1"
        else none) "d" "2024-01-01" "2024-12-31" =
      .ok [⟨some "2024-01-01", some "00:30", some "7", none, some "2"⟩,
           ⟨some "2024-01-02", some "01:00", some "5", none, some "1"⟩] ∧
    (∃ records,
      parseCSV "date,time,load_fcst,revision\n2024-01-02,01:00,5,1\n2024-01-01,00:30,7,2\n2025-01-01,00:00,9,1" "d" =
        .ok records ∧
      List.Perm
        [⟨some "2024-01-01", some "00:30", some "7", none, some "2"⟩,
         ⟨some "2024-01-02", some "01:00", some "5", none, some "1"⟩]
        (dedupValues (shouldReplaceRead pdNum)
          (records.filter (inRange "2024-01-01" "2024-12-31"))) ∧
      List.Sorted recLE
        [⟨some "2024-01-01", some "00:30", some "7", none, some "2"⟩,
         ⟨some "2024-01-02", some "01:00", some "5", none, some "1"⟩] ∧
      (∀ r ∈ [(⟨some "2024-01-01", some "00:30", some "7", none, some "2"⟩ : ForecastRecord),
              ⟨some "2024-01-02", some "01:00", some "5", none, some "1"⟩],
        inRange "2024-01-01" "2024-12-31" r = true) ∧
      (([(⟨some "2024-01-01", some "00:30", some "7", none, some "2"⟩ : ForecastRecord),
         ⟨some "2024-01-02", some "01:00", some "5", none, some "1"⟩]).map recKey).Nodup) :=
  ⟨rfl, by decide,
    c7_query_range pdNum
      (fun n => if n = "d_load_fcst_archive.csv"
        then some "date,time,load_fcst,revision\n2024-01-02,01:00,5,1\n2024-01-01,00:30,7,2\n2025-01-01,00:00,9,1"
        else none)
      "d" "2024-01-01" "2024-12-31"
      "date,time,load_fcst,revision\n2024-01-02,01:00,5,1\n2024-01-01,00:30,7,2\n2025-01-01,00:00,9,1"
      [⟨some "2024-01-01", some "00:30", some "7", none, some "2"⟩,
       ⟨some "2024-01-02", some "01:00", some "5", none, some "1"⟩]
      rfl (by decide)⟩

/-! ## C8: duplicateRecords accounting -/

/-- The number of distinct keys in the fold's result, as a list `dedup`. -/
theorem dedupRecords_length_eq_dedup (repl : Option ForecastRecord → ForecastRecord → Bool)
    (hrepl : ∀ r, repl none r = true) (rows : List ForecastRecord) :
    (dedupRecords repl rows).length = ((rows.map recKey).dedup).length := by
  have h1 : (dedupRecords repl rows).length =
      ((dedupRecords repl rows).map Prod.fst).length := (List.length_map _ _).symm
  have hnodup : ((dedupRecords repl rows).map Prod.fst).Nodup :=
    dedupCountAux_keys_nodup repl rows [] 0 (by simp)
  have hfin : ((dedupRecords repl rows).map Prod.fst).toFinset =
      (rows.map recKey).toFinset := by
    have h := dedupCountAux_keys_toFinset repl hrepl rows [] 0
    simpa [dedupRecords] using h
  rw [h1, ← List.toFinset_card_of_nodup hnodup, hfin, List.card_toFinset]

/-- With no truthy revisions in the input, every row either claims a fresh
key or bumps the duplicate counter, so counter + surviving entries =
starting counter + rows + starting entries. -/
theorem dedupCountAux_count_noRev (pd : String → Option Int) :
    ∀ (rows : List ForecastRecord) (acc : List (String × ForecastRecord)) (d : Nat),
      (∀ r ∈ rows, truthy r.revision = false) →
      (dedupCountAux (shouldReplaceWrite pd) acc d rows).2 +
        (dedupCountAux (shouldReplaceWrite pd) acc d rows).1.length =
        d + rows.length + acc.length
  | [], acc, d, _ => by simp [dedupCountAux, Nat.add_comm]
  | r :: rs, acc, d, hrows => by
    have hr := hrows r (List.mem_cons_self _ _)
    have hrs : ∀ x ∈ rs, truthy x.revision = false :=
      fun x hx => hrows x (List.mem_cons_of_mem _ hx)
    simp only [dedupCountAux]
    cases hg : getKey acc (recKey r) with
    | none =>
      rw [if_pos (by rfl)]
      have ih := dedupCountAux_count_noRev pd rs (setKey acc (recKey r) r) d hrs
      have hlen : (setKey acc (recKey r) r).length = acc.length + 1 := by
        have hmem : recKey r ∉ acc.map Prod.fst := getKey_eq_none_iff.mp hg
        have hm := map_fst_setKey (recKey r) r acc
        rw [if_neg hmem] at hm
        have h2 := congrArg List.length hm
        simpa using h2
      rw [ih, hlen]
      simp [List.length_cons]
      omega
    | some e =>
      rw [if_neg (by simp [shouldReplaceWrite, hr])]
      have ih := dedupCountAux_count_noRev pd rs acc (d + 1) hrs
      rw [ih]
      simp [List.length_cons]
      omega

/-- The valid-row list of a window has exactly `validRecords` entries. -/
theorem length_chunkRecords (headers : List String) (window : List String) :
    (chunkRecords headers window).length =
      window.countP (fun l => isValidRecord (buildRecord headers l)) := by
  induction window with
  | nil => rfl
  | cons l ls ih =>
    simp only [chunkRecords] at ih ⊢
    simp only [List.filterMap_cons, List.countP_cons]
    by_cases hv : isValidRecord (buildRecord headers l) = true
    · simp [hv, ih]
    · simp [hv, ih]

/-- C8 counterexample: two valid rows with the same key where the second
carries a newer revision — the newer row *replaces* the older one, so
`duplicateRecords` stays 0 although one key collapsed (valid rows 2,
distinct keys 1). -/
theorem c8_duplicate_records_counterexample :
    processCSVChunk pdNum (fun _ => true)
      (fun n => if n = "d_load_fcst_archive.csv"
        then some "date,time,load_fcst,revision\n2024-01-01,00:00,100,1\n2024-01-01,00:00,105,2"
        else none)
      "d_load_fcst_archive.csv" 1 10 = .ok ⟨10, 2, 0, 0, 1, false⟩ ∧
    (((chunkRecords
        (headersOf "date,time,load_fcst,revision\n2024-01-01,00:00,100,1\n2024-01-01,00:00,105,2")
        (chunkWindow
          (strSplit "date,time,load_fcst,revision\n2024-01-01,00:00,100,1\n2024-01-01,00:00,105,2" '\n')
          1 10)).map recKey).dedup).length = 1 ∧
    (0 : Nat) ≠ 2 - 1 := by
  refine ⟨by decide, by decide, by decide⟩

/-- C8 amended: `duplicateRecords` counts only the valid rows that found an
existing row for their key and did not replace it; replacements (newer
revisions) are not counted.  In particular, when no valid row in the window
carries a truthy revision, `duplicateRecords` + (number of distinct keys
among the window's valid rows) = `validRecords`. -/
theorem c8_duplicate_records_amended (pd : String → Option Int)
    (upsertOk : ForecastRecord → Bool) (bucket : String → Option String)
    (fileName content : String) (s c : Nat) (res : ChunkResult)
    (hb : bucket fileName = some content)
    (hres : processCSVChunk pd upsertOk bucket fileName s c = .ok res)
    (hnorev : ∀ r ∈ chunkRecords (headersOf content) (chunkWindow (strSplit content '\n') s c),
      truthy r.revision = false) :
    res.duplicateRecords +
      (((chunkRecords (headersOf content)
          (chunkWindow (strSplit content '\n') s c)).map recKey).dedup).length =
      res.validRecords := by
  rw [processCSVChunk, hb] at hres
  dsimp only at hres
  simp only [Except.ok.injEq] at hres
  subst hres
  dsimp only
  have hcount := dedupCountAux_count_noRev pd
    (chunkRecords (headersOf content) (chunkWindow (strSplit content '\n') s c)) [] 0 hnorev
  have hlen : (dedupRecords (shouldReplaceWrite pd)
      (chunkRecords (headersOf content) (chunkWindow (strSplit content '\n') s c))).length =
      (((chunkRecords (headersOf content)
        (chunkWindow (strSplit content '\n') s c)).map recKey).dedup).length :=
    dedupRecords_length_eq_dedup _ (fun _ => rfl) _
  have hrows := length_chunkRecords (headersOf content) (chunkWindow (strSplit content '\n') s c)
  unfold dedupRecords at hlen
  simp only [List.length_nil, Nat.add_zero, Nat.zero_add] at hcount
  omega

/-- C8 amended witness: three revision-less rows over two keys — one
duplicate, two distinct keys, three valid rows. -/
theorem c8_duplicate_records_amended_witness :
    ((fun n => if n = "load_act.csv"
        then some "date,time,load_act\nd,t,5\nd,t,6\nd,u,7" else none) "load_act.csv" =
      some "date,time,load_act\nd,t,5\nd,t,6\nd,u,7") ∧
    processCSVChunk pdNum (fun _ => true)
      (fun n => if n = "load_act.csv"
        then some "date,time,load_act\nd,t,5\nd,t,6\nd,u,7" else none)
      "load_act.csv" 1 10 = .ok ⟨10, 3, 0, 1, 2, false⟩ ∧
    (∀ r ∈ chunkRecords (headersOf "date,time,load_act\nd,t,5\nd,t,6\nd,u,7")
        (chunkWindow (strSplit "date,time,load_act\nd,t,5\nd,t,6\nd,u,7" '\n') 1 10),
      truthy r.revision = false) ∧
    (⟨10, 3, 0, 1, 2, false⟩ : ChunkResult).duplicateRecords +
      (((chunkRecords (headersOf "date,time,load_act\nd,t,5\nd,t,6\nd,u,7")
          (chunkWindow (strSplit "date,time,load_act\nd,t,5\nd,t,6\nd,u,7" '\n') 1 10)).map
        recKey).dedup).length =
      (⟨10, 3, 0, 1, 2, false⟩ : ChunkResult).validRecords :=
  ⟨rfl, by decide, by decide,
    c8_duplicate_records_amended pdNum (fun _ => true)
      (fun n => if n = "load_act.csv"
        then some "date,time,load_act\nd,t,5\nd,t,6\nd,u,7" else none)
      "load_act.csv" "date,time,load_act\nd,t,5\nd,t,6\nd,u,7" 1 10
      ⟨10, 3, 0, 1, 2, false⟩ rfl (by decide) (by decide)⟩

/-! ## C9: the storage-writer loop -/

/-- Closed form of the writer loop: attempted upserts are exactly the
records with a defined value field (independently of any upsert outcome),
and the two counters tally the successful and the failed attempts. -/
theorem storeStep_foldl (upsertOk : ForecastRecord → Bool) (ty : String) :
    ∀ (recs : List ForecastRecord) (st : StoreOutcome),
      recs.foldl (storeStep upsertOk ty) st =
        ⟨st.inserted + recs.countP (fun r => (valueField ty r).isSome && upsertOk r),
         st.errors + recs.countP (fun r => (valueField ty r).isSome && !upsertOk r),
         st.attempted ++ recs.filter (fun r => (valueField ty r).isSome)⟩
  | [], st => by simp
  | r :: rs, st => by
    rw [List.foldl_cons, storeStep_foldl upsertOk ty rs]
    simp only [List.countP_cons, List.filter_cons]
    cases hv : valueField ty r with
    | none =>
      simp [storeStep, hv]
    | some v =>
      cases ho : upsertOk r with
      | true =>
        simp [storeStep, hv, ho, List.append_assoc]
        omega
      | false =>
        simp [storeStep, hv, ho, List.append_assoc]
        omega

/-- C9: in the storage writer, a record missing its kind's value field is
skipped without being counted as an error (it contributes to neither
counter and is never attempted), a failed upsert does not prevent the
remaining records from being attempted (the attempted list is the filter of
defined-value records, for *every* upsert oracle), and the returned
`insertedCount` equals the number of records whose upsert succeeded. -/
theorem c9_store_writer (pd : String → Option Int) (upsertOk : ForecastRecord → Bool)
    (ty : String) (data : List ForecastRecord) :
    (storeForecastDataFull pd upsertOk ty data).attempted =
      (dedupValues (shouldReplaceWrite pd) data).filter
        (fun r => (valueField ty r).isSome) ∧
    (storeForecastDataFull pd upsertOk ty data).inserted =
      (dedupValues (shouldReplaceWrite pd) data).countP
        (fun r => (valueField ty r).isSome && upsertOk r) ∧
    (storeForecastDataFull pd upsertOk ty data).errors =
      (dedupValues (shouldReplaceWrite pd) data).countP
        (fun r => (valueField ty r).isSome && !upsertOk r) ∧
    storeForecastData pd upsertOk ty data = (storeForecastDataFull pd upsertOk ty data).inserted := by
  unfold storeForecastData storeForecastDataFull
  rw [storeStep_foldl]
  simp

/-! ## C10: processCSVChunk performs no structural validation -/

/-- C10: for every file present in storage — whatever its content, including
no data rows or a header lacking the kind's required columns —
`processCSVChunk` returns a `ChunkResult`; the only structural failure it
raises is the not-found error for an absent file. -/
theorem c10_no_structural_validation (pd : String → Option Int)
    (upsertOk : ForecastRecord → Bool) (bucket : String → Option String)
    (fileName : String) (s c : Nat) :
    (∀ content, bucket fileName = some content →
      ∃ res, processCSVChunk pd upsertOk bucket fileName s c = .ok res) ∧
    (bucket fileName = none →
      processCSVChunk pd upsertOk bucket fileName s c = .error .notFound) := by
  constructor
  · intro content hb
    simp only [processCSVChunk, hb]
    exact ⟨_, rfl⟩
  · intro hb
    rw [processCSVChunk, hb]

/-- C10 witness: a present one-line file `"x"` (no data rows, header lacking
every required column) still yields a `ChunkResult`; an absent file yields
the not-found error. -/
theorem c10_no_structural_validation_witness :
    (∃ res, processCSVChunk pdNum (fun _ => true) (fun _ => some "x") "f.csv" 1 5 =
      .ok res) ∧
    processCSVChunk pdNum (fun _ => true) (fun _ => none) "f.csv" 1 5 =
      .error .notFound :=
  ⟨(c10_no_structural_validation pdNum (fun _ => true) (fun _ => some "x")
      "f.csv" 1 5).1 "x" rfl,
   (c10_no_structural_validation pdNum (fun _ => true) (fun _ => none)
      "f.csv" 1 5).2 rfl⟩

end YesEnergy
